import Mathlib

set_option maxRecDepth 4000

/-!
Verification of the trainer module of the theanets repository
(src/lmj/tnn/trainer.py), a thin optimization layer over a symbolic
tensor library.

Modelling conventions:
- Numeric tensor values are modelled as exact rationals; each network
  parameter is a scalar entry of a list, so a network state is a list of
  parameter values together with a list of momentum accumulators
  ("headings") and the scalar step counter t (kept as a natural number,
  matching the counter that starts at 0 and is incremented by 1 at
  each training call).
- The symbolic gradient TT.grad(J, param), computed by the external
  tensor library, is modelled as an abstract function
  grad : input -> params -> gradients giving, for a minibatch input and
  the current parameter values, the derivative of the loss J with
  respect to each parameter.
- A compiled theano function with outputs and an optional updates
  mapping is modelled by theanoRun: one call returns the outputs at the
  pre-call state and, when an updates mapping is present, replaces the
  state by its image under that mapping; all update expressions of one
  call are evaluated at the pre-call state, exactly as a theano updates
  dictionary applies all its rules simultaneously.
- Python dictionaries of keyword options (HF trainer) are association
  lists with string keys; dict.pop(k) without default is a lookup that
  can fail (KeyError), modelled with Except.
- The FORCE trainer never executes successfully; its constructor body is
  modelled at the level of name resolution: each statement lists the
  global/local names it reads and the locals it binds, in source order,
  and execution stops at the first name that is not in scope (NameError).
-/

/-- Configuration options read by SGD.__init__ via kwargs.get, in source
order: validate (self.vf, default 3), epochs (default sys.maxint),
decay (default 1), momentum (local m, default 0), learning_rate
(local lr, default 0.1). -/
structure SGDConfig where
  vf : ℤ
  epochs : ℕ
  decay : ℚ
  m : ℚ
  lr : ℚ

/-- Mutable state owned by an SGD trainer: the shared step counter t,
the network parameters, and the per-parameter momentum accumulators
(the shared variables named g_param in the source). -/
structure SGDState where
  t : ℕ
  params : List ℚ
  headings : List ℚ

/-- The updates dictionary built by SGD.__init__, applied as one
simultaneous step: t -> t + 1; for every parameter,
param -> param + heading and
heading -> m * heading - lr * decay ** t * grad, with every right-hand
side evaluated at the pre-call state. -/
def sgdUpdate {ι : Type} (cfg : SGDConfig) (grad : ι → List ℚ → List ℚ)
    (x : ι) (s : SGDState) : SGDState :=
  { t := s.t + 1
    params := List.zipWith (fun p h => p + h) s.params s.headings
    headings := List.zipWith
      (fun h g => cfg.m * h - cfg.lr * cfg.decay ^ s.t * g)
      s.headings (grad x s.params) }

/-- Trainer state right after SGD.__init__: t is the shared scalar 0 and
each heading is numpy.zeros_like of its parameter. -/
def sgdInit (params0 : List ℚ) : SGDState :=
  { t := 0, params := params0, headings := params0.map (fun _ => 0) }

/-- One call of a compiled theano function: outputs are computed from the
pre-call state; the optional updates mapping, when present, is applied to
produce the post-call state. -/
def theanoRun {ι σ α : Type} (outputs : ι → σ → α)
    (updates : Option (ι → σ → σ)) (x : ι) (s : σ) : σ × α :=
  match updates with
  | none => (s, outputs x s)
  | some f => (f x s, outputs x s)

/-- The cost outputs [J] + network.monitors, as functions of the
minibatch input and the current parameter values. -/
def sgdCosts {ι : Type} (J : ι → List ℚ → ℚ)
    (monitors : ι → List ℚ → List ℚ) (x : ι) (s : SGDState) : List ℚ :=
  J x s.params :: monitors x s.params

/-- self.f_eval = theano.function(network.inputs, costs): outputs only,
no updates. -/
def SGD.f_eval {ι : Type} (J : ι → List ℚ → ℚ)
    (monitors : ι → List ℚ → List ℚ) : ι → SGDState → SGDState × List ℚ :=
  theanoRun (sgdCosts J monitors) none

/-- self.f_train = theano.function(network.inputs, costs,
updates=updates). -/
def SGD.f_train {ι : Type} (cfg : SGDConfig) (grad : ι → List ℚ → List ℚ)
    (J : ι → List ℚ → ℚ) (monitors : ι → List ℚ → List ℚ) :
    ι → SGDState → SGDState × List ℚ :=
  theanoRun (sgdCosts J monitors) (some (sgdUpdate cfg grad))

/-- self.f_rate = theano.function([], [lr * (decay ** t)]): a call
returns the one-element output list at the current value of t. -/
def SGD.f_rate (cfg : SGDConfig) (s : SGDState) : List ℚ :=
  [cfg.lr * cfg.decay ^ s.t]

/-- One epoch body: the state after calling the training function once
per item of the given list, in order
(acc = [self.f_train(*i) for i in train_set], state part). -/
def runCalls {ι : Type} (cfg : SGDConfig) (grad : ι → List ℚ → List ℚ)
    (xs : List ι) (s : SGDState) : SGDState :=
  xs.foldl (fun st x => sgdUpdate cfg grad x st) s

/-- The epoch loop of SGD.train, unrolled with an explicit number of
remaining epochs and the current epoch index u. Returns the final
trainer state and the list of epoch indices at which a validation-set
evaluation was performed, i.e. at which the guard
valid_set is not None and self.vf > 0 and u % self.vf == 0 held.
Validation itself calls f_eval, which has no updates and so leaves the
state unchanged. -/
def SGD.trainGo {ι : Type} (cfg : SGDConfig) (grad : ι → List ℚ → List ℚ)
    (ts : List ι) (vs : Option (List ι)) :
    ℕ → ℕ → SGDState → SGDState × List ℕ
  | 0, _, s => (s, [])
  | Nat.succ n, u, s =>
    let s1 := runCalls cfg grad ts s
    let rest := SGD.trainGo cfg grad ts vs n (u + 1) s1
    if vs.isSome ∧ 0 < cfg.vf ∧ (u : ℤ) % cfg.vf = 0 then
      (rest.1, u :: rest.2)
    else rest

/-- SGD.train(train_set, valid_set): for u in xrange(self.epochs), run
one training call per train_set item and validate when the guard holds. -/
def SGD.train {ι : Type} (cfg : SGDConfig) (grad : ι → List ℚ → List ℚ)
    (ts : List ι) (vs : Option (List ι)) (s : SGDState) :
    SGDState × List ℕ :=
  SGD.trainGo cfg grad ts vs cfg.epochs 0 s

/-- Trainer.evaluate(test_set): return [self.f_eval(*i) for i in
test_set], threading whatever state the evaluation function touches
through the calls in order. -/
def Trainer.evaluate {ι σ α : Type} (feval : ι → σ → σ × α) :
    List ι → σ → σ × List α
  | [], s => (s, [])
  | x :: xs, s =>
    let r := feval x s
    let rest := Trainer.evaluate feval xs r.1
    (rest.1, r.2 :: rest.2)

/-- Concrete scalar network used for witnesses: gradient of the loss
J = (w - 3)^2 with respect to its single parameter w. -/
def gradQuad : Unit → List ℚ → List ℚ :=
  fun _ p => [2 * (p.getD 0 0 - 3)]

/-- Concrete loss J = (w - 3)^2 for witnesses. -/
def lossQuad : Unit → List ℚ → ℚ :=
  fun _ p => (p.getD 0 0 - 3) ^ 2

/-- Concrete empty monitor list for witnesses. -/
def monitorsNone : Unit → List ℚ → List ℚ := fun _ _ => []

/-- Concrete configuration momentum=0, decay=1, learning_rate=0.1
(the plain-SGD scenario of the specification). -/
def cfgPlain : SGDConfig :=
  { vf := 3, epochs := 1, decay := 1, m := 0, lr := 1/10 }

/-- Concrete initial state for the plain-SGD scenario: one parameter
w = 1 with zero-initialized heading. -/
def statePlain : SGDState := { t := 0, params := [1], headings := [0] }

/-- Concrete configuration with nontrivial momentum and decay. -/
def cfgRich : SGDConfig :=
  { vf := 3, epochs := 5, decay := 1/2, m := 1/4, lr := 1/10 }

/-- Concrete mid-training state (t = 2) with one parameter and a
nonzero heading. -/
def stateRich : SGDState := { t := 2, params := [5], headings := [7] }

/-- Concrete configuration with a negative validate frequency. -/
def cfgNegVf : SGDConfig :=
  { vf := -2, epochs := 4, decay := 1, m := 0, lr := 1/10 }

/-- sys.maxint of a 64-bit CPython 2 interpreter, the default value of
the epochs option. -/
def sysMaxint : ℕ := 2 ^ 63 - 1

/-- SGD configuration with every option left at its default:
validate=3, epochs=sys.maxint, decay=1, momentum=0, learning_rate=0.1. -/
def cfgDefault : SGDConfig :=
  { vf := 3, epochs := sysMaxint, decay := 1, m := 0, lr := 1/10 }

-- HF trainer: keyword-option dictionary handling ------------------------

/-- A Python dict of keyword options with string keys, as an association
list (keys unique in any dict produced by the model operations). -/
def PyDict (V : Type) : Type := List (String × V)

/-- Dictionary key lookup (first matching entry). -/
def dictLookup {V : Type} (k : String) : PyDict V → Option V
  | [] => none
  | kv :: d => if kv.1 = k then some kv.2 else dictLookup k d

/-- Removal of every entry with the given key (dict.pop side effect). -/
def dictErase {V : Type} (k : String) : PyDict V → PyDict V
  | [] => []
  | kv :: d => if kv.1 = k then dictErase k d else kv :: dictErase k d

/-- Dictionary key assignment d[k] = v. -/
def dictInsert {V : Type} (k : String) (v : V) (d : PyDict V) : PyDict V :=
  (k, v) :: dictErase k d

/-- Restriction of a dict to a set of kept keys: the result of the loop
for k in set(kwargs) - set(accepted): kwargs.pop(k). -/
def dictRestrict {V : Type} (accepted : List String) : PyDict V → PyDict V
  | [] => []
  | kv :: d =>
    if kv.1 ∈ accepted then kv :: dictRestrict accepted d
    else dictRestrict accepted d

/-- The kwargs fixing block at the end of HF.__init__:
kwargs[num_updates] = kwargs.pop(epochs, sys.maxint);
kwargs[validation_frequency] = kwargs.pop(validate, sys.maxint);
then every key outside accepted is popped, where accepted stands for
self.opt.train.im_func.func_code.co_varnames[1:], the variable names of
the external optimizer's train entry point. maxintV is the option value
standing for sys.maxint. -/
def hfFixKwargs {V : Type} (accepted : List String) (maxintV : V)
    (kw : PyDict V) : PyDict V :=
  let e := (dictLookup "epochs" kw).getD maxintV
  let kw1 := dictInsert "num_updates" e (dictErase "epochs" kw)
  let v := (dictLookup "validate" kw1).getD maxintV
  let kw2 := dictInsert "validation_frequency" v (dictErase "validate" kw1)
  dictRestrict accepted kw2

/-- Keyword-option processing of HF.__init__:
self.cg_set = kwargs.pop(cg_set) (KeyError when the key is absent,
modelled as Except.error with the missing key; the constructor has no
handler for it), then the kwargs fixing block. Returns the stored cg_set
value and the options dict forwarded at train time. -/
def hfInit {V : Type} (accepted : List String) (maxintV : V)
    (kw : PyDict V) : Except String (V × PyDict V) :=
  match dictLookup "cg_set" kw with
  | none => Except.error "cg_set"
  | some cg => Except.ok (cg, hfFixKwargs accepted maxintV (dictErase "cg_set" kw))

/-- Concrete accepted-names list for witnesses. -/
def hfAcc : List String := ["num_updates", "validation_frequency", "sizes"]

/-- Concrete options dict for witnesses: an epochs option, an option the
optimizer accepts, and an unsupported option. -/
def hfKw : PyDict ℕ := [("epochs", 3), ("sizes", 12), ("bar", 7)]

-- FORCE trainer: name-resolution model -----------------------------------

/-- One statement of a constructor body, abstracted to the names it
reads (in evaluation order), the local names it binds, and whether it
compiles a theano function. -/
structure Stmt where
  reads : List String
  writes : List String
  compiles : Bool

/-- Names in scope at the start of FORCE.__init__: the module globals of
trainer.py bound by its imports and class statements, the builtin len,
and the parameters self, network, kwargs. -/
def forceEnv0 : List String :=
  ["logging", "numpy", "theano", "TT", "sys",
   "Trainer", "SGD", "HF", "len", "self", "network", "kwargs"]

/-- The statements of FORCE.__init__ in source order. The names T, b_out
and FLOAT are read but never bound anywhere in the module. The two
theano.function calls at the end are the only compiling statements. -/
def forceInitBody : List Stmt :=
  [⟨["network"], ["W_in", "W_pool", "W_out"], false⟩,
   ⟨["len", "W_pool"], ["n"], false⟩,
   ⟨["kwargs", "n"], ["alpha"], false⟩,
   ⟨["theano", "numpy", "n", "FLOAT", "alpha"], ["P"], false⟩,
   ⟨["T", "P", "network"], ["k"], false⟩,
   ⟨["T", "network", "k"], ["rPr"], false⟩,
   ⟨["network", "kwargs"], ["J"], false⟩,
   ⟨[], ["updates"], false⟩,
   ⟨["updates", "P", "T", "k", "rPr"], [], false⟩,
   ⟨["updates", "W_pool", "J", "k", "rPr"], [], false⟩,
   ⟨["updates", "W_out", "J", "k", "rPr"], [], false⟩,
   ⟨["updates", "b_out", "alpha", "T", "J"], [], false⟩,
   ⟨["J", "network"], ["costs"], false⟩,
   ⟨["theano", "network", "costs", "self"], [], true⟩,
   ⟨["theano", "network", "costs", "updates", "self"], [], true⟩]

/-- Run a statement list: execution stops at the first read of a name
not in scope (a NameError naming it); the Bool accumulates whether any
compiling statement was executed before that point. Returns that flag
and the offending name, if any. -/
def runInit : List Stmt → List String → Bool → Bool × Option String
  | [], _, compiled => (compiled, none)
  | st :: rest, env, compiled =>
    match st.reads.find? (fun n => ! env.contains n) with
    | some n => (compiled, some n)
    | none => runInit rest (st.writes ++ env) (compiled || st.compiles)

/-- FORCE.train(train_set, valid_set): the body is pass, so the call
changes no state and returns None. -/
def FORCE.train {ι σ : Type} (_ts : List ι) (_vs : Option (List ι))
    (s : σ) : σ × Option Unit :=
  (s, none)

-- Helper lemmas ---------------------------------------------------------

theorem getD_zipWith (f : ℚ → ℚ → ℚ) :
    ∀ (as bs : List ℚ) (i : ℕ), i < as.length → i < bs.length →
      (List.zipWith f as bs).getD i 0 = f (as.getD i 0) (bs.getD i 0) := by
  intro as
  induction as with
  | nil => intro bs i h _; simp at h
  | cons a as ih =>
    intro bs i h1 h2
    cases bs with
    | nil => simp at h2
    | cons b bs =>
      cases i with
      | zero => rfl
      | succ i =>
        have h1' : i < as.length := by simpa using h1
        have h2' : i < bs.length := by simpa using h2
        simpa using ih bs i h1' h2'

theorem runCalls_t {ι : Type} (cfg : SGDConfig) (grad : ι → List ℚ → List ℚ) :
    ∀ (xs : List ι) (s : SGDState),
      (runCalls cfg grad xs s).t = s.t + xs.length := by
  intro xs
  induction xs with
  | nil => intro s; rfl
  | cons x xs ih =>
    intro s
    have := ih (sgdUpdate cfg grad x s)
    simp only [runCalls, List.foldl_cons] at this ⊢
    rw [this]
    simp [sgdUpdate]
    omega

theorem trainGo_t {ι : Type} (cfg : SGDConfig) (grad : ι → List ℚ → List ℚ)
    (ts : List ι) (vs : Option (List ι)) :
    ∀ (n u : ℕ) (s : SGDState),
      (SGD.trainGo cfg grad ts vs n u s).1.t = s.t + n * ts.length := by
  intro n
  induction n with
  | zero => intro u s; simp [SGD.trainGo]
  | succ n ih =>
    intro u s
    simp only [SGD.trainGo]
    split
    · simp only [ih, runCalls_t]; ring
    · simp only [ih, runCalls_t]; ring

theorem sgd_train_t {ι : Type} (cfg : SGDConfig) (grad : ι → List ℚ → List ℚ)
    (ts : List ι) (vs : Option (List ι)) (s : SGDState) :
    (SGD.train cfg grad ts vs s).1.t = s.t + cfg.epochs * ts.length :=
  trainGo_t cfg grad ts vs cfg.epochs 0 s

theorem mem_trainGo {ι : Type} (cfg : SGDConfig) (grad : ι → List ℚ → List ℚ)
    (ts : List ι) (vs : Option (List ι)) :
    ∀ (n u w : ℕ) (s : SGDState),
      (w ∈ (SGD.trainGo cfg grad ts vs n u s).2 ↔
        (u ≤ w ∧ w < u + n ∧ vs.isSome ∧ 0 < cfg.vf ∧ (w : ℤ) % cfg.vf = 0)) := by
  intro n
  induction n with
  | zero =>
    intro u w s
    simp only [SGD.trainGo, List.not_mem_nil, false_iff]
    rintro ⟨h1, h2, _⟩
    omega
  | succ n ih =>
    intro u w s
    simp only [SGD.trainGo]
    by_cases hc : vs.isSome ∧ 0 < cfg.vf ∧ (u : ℤ) % cfg.vf = 0
    · rw [if_pos hc]
      simp only [List.mem_cons, ih]
      constructor
      · rintro (rfl | ⟨hw1, hw2, hw3, hw4, hw5⟩)
        · exact ⟨le_refl w, by omega, hc.1, hc.2.1, hc.2.2⟩
        · exact ⟨by omega, by omega, hw3, hw4, hw5⟩
      · rintro ⟨hw1, hw2, hw3, hw4, hw5⟩
        by_cases hw : w = u
        · exact Or.inl hw
        · exact Or.inr ⟨by omega, by omega, hw3, hw4, hw5⟩
    · rw [if_neg hc]
      rw [ih]
      constructor
      · rintro ⟨hw1, hw2, hw3, hw4, hw5⟩
        exact ⟨by omega, by omega, hw3, hw4, hw5⟩
      · rintro ⟨hw1, hw2, hw3, hw4, hw5⟩
        refine ⟨?_, by omega, hw3, hw4, hw5⟩
        rcases Nat.lt_or_ge u.succ (w + 1) with h | h
        · omega
        · have hwu : w = u := by omega
          subst hwu
          exact absurd ⟨hw3, hw4, hw5⟩ hc

theorem dictLookup_erase_self {V : Type} (k : String) :
    ∀ d : PyDict V, dictLookup k (dictErase k d) = none := by
  intro d
  induction d with
  | nil => rfl
  | cons kv d ih =>
    simp only [dictErase]
    by_cases h : kv.1 = k
    · rw [if_pos h]; exact ih
    · rw [if_neg h]
      simp only [dictLookup, if_neg h]
      exact ih

theorem dictLookup_erase_ne {V : Type} (k1 k2 : String) (h : k1 ≠ k2) :
    ∀ d : PyDict V, dictLookup k1 (dictErase k2 d) = dictLookup k1 d := by
  intro d
  induction d with
  | nil => rfl
  | cons kv d ih =>
    simp only [dictErase]
    by_cases h2 : kv.1 = k2
    · rw [if_pos h2, ih]
      have hne : ¬ kv.1 = k1 := by
        rw [h2]
        intro he
        exact h he.symm
      simp only [dictLookup, if_neg hne]
    · rw [if_neg h2]
      simp only [dictLookup]
      rw [ih]

theorem dictLookup_insert_self {V : Type} (k : String) (v : V) (d : PyDict V) :
    dictLookup k (dictInsert k v d) = some v := by
  simp [dictInsert, dictLookup]

theorem dictLookup_insert_ne {V : Type} (k1 k2 : String) (v : V) (h : k1 ≠ k2)
    (d : PyDict V) : dictLookup k1 (dictInsert k2 v d) = dictLookup k1 d := by
  have hne : ¬ (k2 = k1) := fun he => h he.symm
  simp only [dictInsert, dictLookup, if_neg hne]
  exact dictLookup_erase_ne k1 k2 h d

theorem dictLookup_restrict {V : Type} (k : String) (accepted : List String) :
    ∀ d : PyDict V, dictLookup k (dictRestrict accepted d)
      = if k ∈ accepted then dictLookup k d else none := by
  intro d
  induction d with
  | nil => simp [dictRestrict, dictLookup]
  | cons kv d ih =>
    simp only [dictRestrict]
    by_cases hm : kv.1 ∈ accepted
    · rw [if_pos hm]
      simp only [dictLookup, ih]
      by_cases he : kv.1 = k
      · subst he
        rw [if_pos rfl, if_pos hm, if_pos rfl]
      · rw [if_neg he]
        by_cases hk : k ∈ accepted
        · rw [if_pos hk, if_pos hk, if_neg he]
        · rw [if_neg hk, if_neg hk]
    · rw [if_neg hm, ih]
      by_cases hk : k ∈ accepted
      · rw [if_pos hk, if_pos hk]
        have hne : kv.1 ≠ k := fun he => hm (he ▸ hk)
        simp only [dictLookup, if_neg hne]
      · rw [if_neg hk, if_neg hk]

-- Claims -----------------------------------------------------------------

/-- C1: each call of the compiled SGD training function applies, at every
parameter index, the update pair parameter -> parameter + heading and
heading -> momentum * heading - learning_rate * decay ^ t * gradient,
with every right-hand side evaluated at the pre-call state, so the
parameter update uses the heading of the prior step and the heading is
then refreshed. -/
theorem sgd_step_update_pair {ι : Type} (cfg : SGDConfig)
    (grad : ι → List ℚ → List ℚ) (J : ι → List ℚ → ℚ)
    (monitors : ι → List ℚ → List ℚ) (x : ι) (s : SGDState) (i : ℕ)
    (hp : i < s.params.length) (hh : i < s.headings.length)
    (hg : i < (grad x s.params).length) :
    ((SGD.f_train cfg grad J monitors x s).1.params.getD i 0
        = s.params.getD i 0 + s.headings.getD i 0) ∧
    ((SGD.f_train cfg grad J monitors x s).1.headings.getD i 0
        = cfg.m * s.headings.getD i 0
          - cfg.lr * cfg.decay ^ s.t * (grad x s.params).getD i 0) :=
  ⟨getD_zipWith _ s.params s.headings i hp hh,
   getD_zipWith _ s.headings (grad x s.params) i hh hg⟩

/-- Witness for C1 at a concrete configuration, gradient and state. -/
theorem sgd_step_update_pair_witness :
    (0 < stateRich.params.length ∧ 0 < stateRich.headings.length ∧
      0 < (gradQuad () stateRich.params).length) ∧
    ((SGD.f_train cfgRich gradQuad lossQuad monitorsNone () stateRich).1.params.getD 0 0
        = stateRich.params.getD 0 0 + stateRich.headings.getD 0 0) ∧
    ((SGD.f_train cfgRich gradQuad lossQuad monitorsNone () stateRich).1.headings.getD 0 0
        = cfgRich.m * stateRich.headings.getD 0 0
          - cfgRich.lr * cfgRich.decay ^ stateRich.t
            * (gradQuad () stateRich.params).getD 0 0) :=
  ⟨⟨by decide, by decide, by decide⟩,
   sgd_step_update_pair cfgRich gradQuad lossQuad monitorsNone () stateRich 0
     (by decide) (by decide) (by decide)⟩

/-- C2 counterexample: with momentum=0, decay=1, learning_rate=1/10, one
parameter w = 1 and loss (w - 3)^2, the parameter after the first
training call is 1 (unchanged, because the zero-initialized heading is
added), not 1 - learning_rate * gradient = 7/5 as the claim states. -/
theorem sgd_plain_step_counterexample :
    ¬ ((SGD.f_train cfgPlain gradQuad lossQuad monitorsNone () statePlain).1.params.getD 0 0
        = statePlain.params.getD 0 0
          - cfgPlain.lr * (gradQuad () statePlain.params).getD 0 0) := by
  norm_num [SGD.f_train, theanoRun, sgdUpdate, cfgPlain, statePlain, gradQuad]

/-- C2 (amended): with momentum=0 and decay=1 the SGD parameter update is
lagged by one step: a training call moves each parameter by the pre-call
heading, and the following call moves the parameter by exactly minus
learning_rate times the gradient taken at the earlier call's pre-call
parameter values. -/
theorem sgd_plain_step_lagged {ι : Type} (cfg : SGDConfig)
    (grad : ι → List ℚ → List ℚ) (J : ι → List ℚ → ℚ)
    (monitors : ι → List ℚ → List ℚ) (x1 x2 : ι) (s : SGDState) (i : ℕ)
    (hm : cfg.m = 0) (hd : cfg.decay = 1)
    (hp : i < s.params.length) (hh : i < s.headings.length)
    (hg : i < (grad x1 s.params).length) :
    ((SGD.f_train cfg grad J monitors x1 s).1.params.getD i 0
        = s.params.getD i 0 + s.headings.getD i 0) ∧
    ((SGD.f_train cfg grad J monitors x2
        (SGD.f_train cfg grad J monitors x1 s).1).1.params.getD i 0
        = (SGD.f_train cfg grad J monitors x1 s).1.params.getD i 0
          - cfg.lr * (grad x1 s.params).getD i 0) := by
  have hp1 : i < (sgdUpdate cfg grad x1 s).params.length := by
    show i < (List.zipWith (fun p h => p + h) s.params s.headings).length
    rw [List.length_zipWith]
    exact lt_min hp hh
  have hh1 : i < (sgdUpdate cfg grad x1 s).headings.length := by
    show i < (List.zipWith
      (fun h g => cfg.m * h - cfg.lr * cfg.decay ^ s.t * g)
      s.headings (grad x1 s.params)).length
    rw [List.length_zipWith]
    exact lt_min hh hg
  constructor
  · exact getD_zipWith _ s.params s.headings i hp hh
  · have e1 : (sgdUpdate cfg grad x2 (sgdUpdate cfg grad x1 s)).params.getD i 0
        = (sgdUpdate cfg grad x1 s).params.getD i 0
          + (sgdUpdate cfg grad x1 s).headings.getD i 0 :=
      getD_zipWith _ _ _ i hp1 hh1
    have e2 : (sgdUpdate cfg grad x1 s).headings.getD i 0
        = cfg.m * s.headings.getD i 0
          - cfg.lr * cfg.decay ^ s.t * (grad x1 s.params).getD i 0 :=
      getD_zipWith _ s.headings (grad x1 s.params) i hh hg
    show (sgdUpdate cfg grad x2 (sgdUpdate cfg grad x1 s)).params.getD i 0
        = (sgdUpdate cfg grad x1 s).params.getD i 0
          - cfg.lr * (grad x1 s.params).getD i 0
    rw [e1, e2, hm, hd]
    ring

/-- Witness for the amended C2 at the specification's own scenario:
w = 1, loss (w - 3)^2, learning_rate = 1/10. -/
theorem sgd_plain_step_lagged_witness :
    (cfgPlain.m = 0 ∧ cfgPlain.decay = 1) ∧
    ((SGD.f_train cfgPlain gradQuad lossQuad monitorsNone () statePlain).1.params.getD 0 0
        = statePlain.params.getD 0 0 + statePlain.headings.getD 0 0) ∧
    ((SGD.f_train cfgPlain gradQuad lossQuad monitorsNone ()
        (SGD.f_train cfgPlain gradQuad lossQuad monitorsNone () statePlain).1).1.params.getD 0 0
        = (SGD.f_train cfgPlain gradQuad lossQuad monitorsNone () statePlain).1.params.getD 0 0
          - cfgPlain.lr * (gradQuad () statePlain.params).getD 0 0) :=
  ⟨⟨rfl, rfl⟩,
   sgd_plain_step_lagged cfgPlain gradQuad lossQuad monitorsNone () () statePlain 0
     rfl rfl (by decide) (by decide) (by decide)⟩

/-- C3: the step counter starts at 0, is incremented by exactly 1 on
each training-function call, and after any sequence of t training calls
f_rate returns learning_rate * decay ^ t. -/
theorem sgd_step_counter_and_rate {ι : Type} (cfg : SGDConfig)
    (grad : ι → List ℚ → List ℚ) (p0 : List ℚ) (xs : List ι) :
    (sgdInit p0).t = 0 ∧
    (∀ (x : ι) (s : SGDState), (sgdUpdate cfg grad x s).t = s.t + 1) ∧
    SGD.f_rate cfg (runCalls cfg grad xs (sgdInit p0))
      = [cfg.lr * cfg.decay ^ xs.length] := by
  refine ⟨rfl, fun x s => rfl, ?_⟩
  have h := runCalls_t cfg grad xs (sgdInit p0)
  simp only [SGD.f_rate, h]
  norm_num [sgdInit]

/-- C4: in SGD.train a validation-set evaluation occurs in epoch u
exactly when u is an executed epoch index, valid_set is present, the
validate frequency is strictly positive, and u is divisible by it; in
particular with validate = 0 no validation ever occurs. -/
theorem sgd_validation_iff {ι : Type} (cfg : SGDConfig)
    (grad : ι → List ℚ → List ℚ) (ts : List ι) (vs : Option (List ι))
    (s : SGDState) (u : ℕ) :
    u ∈ (SGD.train cfg grad ts vs s).2 ↔
      (u < cfg.epochs ∧ vs.isSome ∧ 0 < cfg.vf ∧ (u : ℤ) % cfg.vf = 0) := by
  have h := mem_trainGo cfg grad ts vs cfg.epochs 0 u s
  rw [show (SGD.train cfg grad ts vs s)
      = SGD.trainGo cfg grad ts vs cfg.epochs 0 s from rfl, h]
  constructor
  · rintro ⟨h1, h2, h3, h4, h5⟩
    exact ⟨by omega, h3, h4, h5⟩
  · rintro ⟨h1, h2, h3, h4⟩
    exact ⟨Nat.zero_le u, by omega, h2, h3, h4⟩

/-- C5: Trainer.evaluate with the SGD evaluation function, which is
compiled with no update rules, leaves the whole trainer state unchanged
and returns the ordered list of cost outputs, one per test-set item. -/
theorem evaluate_pure {ι : Type} (J : ι → List ℚ → ℚ)
    (monitors : ι → List ℚ → List ℚ) (ts : List ι) (s : SGDState) :
    Trainer.evaluate (SGD.f_eval J monitors) ts s
      = (s, ts.map (fun x => sgdCosts J monitors x s)) := by
  induction ts with
  | nil => rfl
  | cons x xs ih =>
    simp only [SGD.f_eval] at ih ⊢
    simp only [Trainer.evaluate, theanoRun, List.map_cons]
    rw [ih]

/-- C6: the HF kwargs fixing block renames epochs to num_updates and
validate to validation_frequency, keeps only keys among the accepted
variable names of the external optimizer's train entry point, and drops
every other key silently; the block is a total function, so no error is
raised. -/
theorem hf_kwargs_filtering {V : Type} (accepted : List String)
    (maxintV : V) (kw : PyDict V) :
    dictLookup "epochs" (hfFixKwargs accepted maxintV kw) = none ∧
    dictLookup "validate" (hfFixKwargs accepted maxintV kw) = none ∧
    ("num_updates" ∈ accepted →
      dictLookup "num_updates" (hfFixKwargs accepted maxintV kw)
        = some ((dictLookup "epochs" kw).getD maxintV)) ∧
    ("validation_frequency" ∈ accepted →
      dictLookup "validation_frequency" (hfFixKwargs accepted maxintV kw)
        = some ((dictLookup "validate" kw).getD maxintV)) ∧
    (∀ k, k ∉ accepted →
      dictLookup k (hfFixKwargs accepted maxintV kw) = none) := by
  have hval : dictLookup "validate"
      (dictInsert "num_updates" ((dictLookup "epochs" kw).getD maxintV)
        (dictErase "epochs" kw)) = dictLookup "validate" kw := by
    rw [dictLookup_insert_ne _ _ _ (by decide),
        dictLookup_erase_ne _ _ (by decide)]
  simp only [hfFixKwargs]
  refine ⟨?_, ?_, ?_, ?_, ?_⟩
  · rw [dictLookup_restrict]
    by_cases hk : ("epochs" : String) ∈ accepted
    · rw [if_pos hk, dictLookup_insert_ne _ _ _ (by decide),
          dictLookup_erase_ne _ _ (by decide),
          dictLookup_insert_ne _ _ _ (by decide),
          dictLookup_erase_self]
    · rw [if_neg hk]
  · rw [dictLookup_restrict]
    by_cases hk : ("validate" : String) ∈ accepted
    · rw [if_pos hk, dictLookup_insert_ne _ _ _ (by decide),
          dictLookup_erase_self]
    · rw [if_neg hk]
  · intro h
    rw [dictLookup_restrict, if_pos h, dictLookup_insert_ne _ _ _ (by decide),
        dictLookup_erase_ne _ _ (by decide), dictLookup_insert_self]
  · intro h
    rw [dictLookup_restrict, if_pos h, dictLookup_insert_self, hval]
  · intro k hk
    rw [dictLookup_restrict, if_neg hk]

/-- Witness for C6: with accepted names including num_updates,
validation_frequency and sizes, the options dict with keys epochs,
sizes and bar is forwarded with epochs renamed and bar dropped. -/
theorem hf_kwargs_filtering_witness :
    ("num_updates" ∈ hfAcc ∧ "validation_frequency" ∈ hfAcc ∧ "bar" ∉ hfAcc) ∧
    dictLookup "num_updates" (hfFixKwargs hfAcc 999 hfKw)
      = some ((dictLookup "epochs" hfKw).getD 999) ∧
    dictLookup "validation_frequency" (hfFixKwargs hfAcc 999 hfKw)
      = some ((dictLookup "validate" hfKw).getD 999) ∧
    dictLookup "bar" (hfFixKwargs hfAcc 999 hfKw) = none :=
  ⟨⟨by decide, by decide, by decide⟩,
   (hf_kwargs_filtering hfAcc 999 hfKw).2.2.1 (by decide),
   (hf_kwargs_filtering hfAcc 999 hfKw).2.2.2.1 (by decide),
   (hf_kwargs_filtering hfAcc 999 hfKw).2.2.2.2 "bar" (by decide)⟩

/-- C7: HF construction with an options dict lacking the key cg_set
fails with a key error naming cg_set, which the constructor does not
handle. -/
theorem hf_missing_cg_set_errors {V : Type} (accepted : List String)
    (maxintV : V) (kw : PyDict V)
    (h : dictLookup "cg_set" kw = none) :
    hfInit accepted maxintV kw = Except.error "cg_set" := by
  unfold hfInit
  rw [h]

/-- Witness for C7: an options dict with only an epochs key makes HF
construction fail with the cg_set key error. -/
theorem hf_missing_cg_set_errors_witness :
    dictLookup "cg_set" hfKw = none ∧
    hfInit hfAcc (999 : ℕ) hfKw = Except.error "cg_set" :=
  ⟨by decide, hf_missing_cg_set_errors hfAcc 999 hfKw (by decide)⟩

/-- C8 (amended): SGD.train terminates after exactly epochs * |train_set|
training-function calls — the step counter, which each call increments
once, grows by exactly that amount over the run. The epochs option
defaults to sys.maxint, a finite bound. -/
theorem sgd_train_call_count {ι : Type} (cfg : SGDConfig)
    (grad : ι → List ℚ → List ℚ) (ts : List ι) (vs : Option (List ι))
    (s : SGDState) :
    (SGD.train cfg grad ts vs s).1.t = s.t + cfg.epochs * ts.length :=
  sgd_train_t cfg grad ts vs s

/-- C8 counterexample: with the epochs option left at its default the
epoch loop is not unbounded: on a one-item training set the run performs
exactly sys.maxint = 2^63 - 1 training calls and stops, so the final
step counter does not exceed every natural number. -/
theorem sgd_default_epochs_not_unbounded :
    ¬ (∀ N : ℕ,
        N < (SGD.train cfgDefault gradQuad [()] none (sgdInit [1])).1.t) := by
  intro h
  have h2 := h (2 ^ 63)
  rw [sgd_train_t] at h2
  norm_num [sgdInit, cfgDefault, sysMaxint] at h2

/-- C9: executing the body of FORCE.__init__ stops with a name-resolution
error on the undefined name FLOAT before reaching either statement that
compiles a theano function, and FORCE.train is a no-op: it changes no
state and returns None for any train and validation sets. -/
theorem force_init_name_error_and_train_noop {ι σ : Type} :
    runInit forceInitBody forceEnv0 false = (false, some "FLOAT") ∧
    ∀ (ts : List ι) (vs : Option (List ι)) (s : σ),
      FORCE.train ts vs s = (s, none) :=
  ⟨by decide, fun _ _ _ => rfl⟩

/-- C10: with any validate value at most 0, including negative ones,
SGD.train performs no validation-set evaluation in any epoch even when a
validation set is supplied, because the guard requires the frequency to
be strictly positive. -/
theorem sgd_nonpositive_validate_no_validation {ι : Type} (cfg : SGDConfig)
    (grad : ι → List ℚ → List ℚ) (ts : List ι) (vs : Option (List ι))
    (s : SGDState) (h : cfg.vf ≤ 0) :
    (SGD.train cfg grad ts vs s).2 = [] := by
  rcases hL : (SGD.train cfg grad ts vs s).2 with _ | ⟨w, l⟩
  · rfl
  · exfalso
    have hw : w ∈ (SGD.train cfg grad ts vs s).2 := by
      rw [hL]
      exact List.mem_cons_self w l
    have hmem := (mem_trainGo cfg grad ts vs cfg.epochs 0 w s).mp hw
    obtain ⟨_, _, _, hvf, _⟩ := hmem
    omega

/-- Witness for C10: validate = -2 with a validation set supplied yields
an empty validation log over four epochs. -/
theorem sgd_nonpositive_validate_no_validation_witness :
    cfgNegVf.vf ≤ 0 ∧
    (SGD.train cfgNegVf gradQuad [(), ()] (some [()]) (sgdInit [1])).2 = [] :=
  ⟨by decide,
   sgd_nonpositive_validate_no_validation cfgNegVf gradQuad [(), ()]
     (some [()]) (sgdInit [1]) (by decide)⟩
